import Mathlib

/-!
Verification of the hiPSC agent-based model core (Python-hiPSC-ABM).

Shallow embedding of the simulation kernels of `Model/backend.py`, the
per-cell methods of `Model/Cell.py` and the gradient degradation of
`Gradient.py`.  Floating-point arithmetic of the source is modelled as exact
real arithmetic; NumPy arrays indexed by agents become functions `ℕ → _`;
the fixed-capacity edge buffers become lists of performed writes together
with the running counters the kernels maintain.
-/

open scoped BigOperators

/-- A 3-vector of reals, the type of `location`, force and velocity entries. -/
def Vec3 : Type := Fin 3 → ℝ

noncomputable instance : Add Vec3 := ⟨fun u v => fun i => u i + v i⟩

noncomputable instance : Sub Vec3 := ⟨fun u v => fun i => u i - v i⟩

noncomputable instance : SMul ℝ Vec3 := ⟨fun c v => fun i => c * v i⟩

instance : Zero Vec3 := ⟨fun _ => (0 : ℝ)⟩

@[simp] lemma Vec3.add_apply (u v : Vec3) (i : Fin 3) : (u + v) i = u i + v i := rfl

@[simp] lemma Vec3.sub_apply (u v : Vec3) (i : Fin 3) : (u - v) i = u i - v i := rfl

@[simp] lemma Vec3.smul_apply (c : ℝ) (v : Vec3) (i : Fin 3) : (c • v) i = c * v i := rfl

@[simp] lemma Vec3.zero_apply (i : Fin 3) : (0 : Vec3) i = 0 := rfl

/-- Euclidean norm of a 3-vector: the computation of `np.linalg.norm` and of
the device function `magnitude` in `backend.py` (sum of squared axis
differences, then a square root). -/
noncomputable def norm3 (v : Vec3) : ℝ :=
  Real.sqrt (v 0 ^ 2 + v 1 ^ 2 + v 2 ^ 2)

/-- Distance between two points, `np.linalg.norm(locations[b] - locations[a])`. -/
noncomputable def dist3 (u v : Vec3) : ℝ := norm3 (v - u)

lemma norm3_nonneg (v : Vec3) : 0 ≤ norm3 v := Real.sqrt_nonneg _

lemma dist3_comm (u v : Vec3) : dist3 u v = dist3 v u := by
  unfold dist3 norm3
  simp only [Vec3.sub_apply]
  ring_nf

lemma dist3_self (u : Vec3) : dist3 u u = 0 := by
  unfold dist3 norm3
  simp

lemma norm3_smul (c : ℝ) (v : Vec3) : norm3 (c • v) = |c| * norm3 v := by
  unfold norm3
  rw [show (c • v) 0 ^ 2 + (c • v) 1 ^ 2 + (c • v) 2 ^ 2
      = c ^ 2 * (v 0 ^ 2 + v 1 ^ 2 + v 2 ^ 2) by simp; ring]
  rw [Real.sqrt_mul (sq_nonneg c), Real.sqrt_sq_eq_abs]

/-- Coordinatewise absolute difference is bounded by the distance. -/
lemma abs_sub_le_dist3 (u v : Vec3) (i : Fin 3) : |u i - v i| ≤ dist3 u v := by
  unfold dist3 norm3
  rw [← Real.sqrt_sq_eq_abs]
  apply Real.sqrt_le_sqrt
  fin_cases i <;> simp <;> nlinarith [sq_nonneg ((v - u) 0), sq_nonneg ((v - u) 1),
    sq_nonneg ((v - u) 2)]

/-! ## The integrator kernel `apply_forces_cpu` (`backend.py`, lines 430-456)

Per agent `i` and axis `j` the kernel computes the overdamped velocity from
the two force accumulators, takes a forward-Euler step of length `move_dt`
and clamps the candidate coordinate to the simulation space. -/

/-- One agent of `apply_forces_cpu`: Stokes friction, velocity, Euler step,
per-axis clamp to `[0, size[j]]`, exactly as the loop body of the kernel. -/
noncomputable def apply_forces_cpu (jkr_force motility_force location : Vec3)
    (radius viscosity : ℝ) (size : Vec3) (move_dt : ℝ) : Vec3 :=
  fun j =>
    let stokes_friction := 6 * Real.pi * viscosity * radius
    let velocity := (motility_force j + jkr_force j) / stokes_friction
    let new_location := location j + velocity * move_dt
    if new_location > size j then size j
    else if new_location < 0 then 0
    else new_location

/-- C3. For an agent with positive radius and positive viscosity the
integrator computes `velocity = (adhesion_force + motility_force) /
(6π·viscosity·radius)` and the Euler candidate `location + velocity·move_dt`,
then clamps each axis independently: the post-integration coordinate lies in
`[0, size j]`; a candidate above `size j` lands exactly at `size j`; a
candidate below `0` lands exactly at `0`; an in-range candidate is taken
unchanged. -/
theorem apply_forces_cpu_clamps (jkr_force motility_force location : Vec3)
    (radius viscosity : ℝ) (size : Vec3) (move_dt : ℝ) (j : Fin 3)
    (velocity candidate : ℝ)
    (hradius : 0 < radius) (hviscosity : 0 < viscosity) (hsize : 0 ≤ size j)
    (hvel : velocity = (jkr_force j + motility_force j) / (6 * Real.pi * viscosity * radius))
    (hcand : candidate = location j + velocity * move_dt) :
    (0 ≤ apply_forces_cpu jkr_force motility_force location radius viscosity size move_dt j ∧
      apply_forces_cpu jkr_force motility_force location radius viscosity size move_dt j ≤ size j) ∧
    (candidate > size j →
      apply_forces_cpu jkr_force motility_force location radius viscosity size move_dt j = size j) ∧
    (candidate < 0 →
      apply_forces_cpu jkr_force motility_force location radius viscosity size move_dt j = 0) ∧
    (0 ≤ candidate → candidate ≤ size j →
      apply_forces_cpu jkr_force motility_force location radius viscosity size move_dt j = candidate) := by
  have hc : candidate = location j +
      (motility_force j + jkr_force j) / (6 * Real.pi * viscosity * radius) * move_dt := by
    rw [hcand, hvel]; ring_nf
  unfold apply_forces_cpu
  simp only [← hc]
  constructor
  · split
    · exact ⟨hsize, le_refl _⟩
    · split
      · exact ⟨le_refl _, hsize⟩
      · constructor
        · linarith [not_lt.mp (by assumption : ¬ candidate < 0)]
        · linarith [not_lt.mp (by assumption : ¬ candidate > size j)]
  · refine ⟨fun h => by simp [h], fun h => ?_, fun h0 h1 => ?_⟩
    · rw [if_neg (by linarith), if_pos h]
    · rw [if_neg (by linarith), if_neg (by linarith)]

/-- Witness for C3: zero forces on an agent at `x = 1/2` of a unit domain
leave the coordinate unchanged and inside `[0, 1]`. -/
theorem apply_forces_cpu_clamps_witness :
    (0 ≤ apply_forces_cpu (fun _ => 0) (fun _ => 0) (fun _ => (1:ℝ)/2) 1 1 (fun _ => 1) 1 0 ∧
      apply_forces_cpu (fun _ => 0) (fun _ => 0) (fun _ => (1:ℝ)/2) 1 1 (fun _ => 1) 1 0 ≤
        (fun _ => (1:ℝ)) 0) ∧
    (((1:ℝ)/2 > (fun _ => (1:ℝ)) 0) →
      apply_forces_cpu (fun _ => 0) (fun _ => 0) (fun _ => (1:ℝ)/2) 1 1 (fun _ => 1) 1 0 =
        (fun _ => (1:ℝ)) 0) ∧
    (((1:ℝ)/2 < 0) →
      apply_forces_cpu (fun _ => 0) (fun _ => 0) (fun _ => (1:ℝ)/2) 1 1 (fun _ => 1) 1 0 = 0) ∧
    ((0 ≤ (1:ℝ)/2) → ((1:ℝ)/2 ≤ (fun _ => (1:ℝ)) 0) →
      apply_forces_cpu (fun _ => 0) (fun _ => 0) (fun _ => (1:ℝ)/2) 1 1 (fun _ => 1) 1 0 = (1:ℝ)/2) :=
  apply_forces_cpu_clamps (fun _ => 0) (fun _ => 0) (fun _ => (1:ℝ)/2) 1 1 (fun _ => 1) 1 0
    ((1:ℝ)/2 - (1:ℝ)/2) ((1:ℝ)/2)
    one_pos one_pos zero_le_one
    (by norm_num) (by norm_num)

/-! ## The integration step over the whole agent state (C10)

`apply_forces_cpu` receives only the force accumulators, `locations`,
`radii`, `viscosity`, `size` and `move_dt`, and returns the new `locations`
array; the per-agent record below carries every per-agent field the data
model names so that the frame property is a statement, not a convention. -/

/-- Phenotype of a cell, the string field `state` of `Cell.py`. -/
inductive CellState : Type
  | Pluripotent : CellState
  | Differentiated : CellState
deriving DecidableEq

/-- The per-agent fields of the simulation state: location, radius, motion
flag, regulatory vector, phenotype, the four lifecycle counters and the two
force accumulators of the backend arrays. -/
structure Agent : Type where
  location : Vec3
  radius : ℝ
  motion : Bool
  booleans : Fin 5 → ℤ
  state : CellState
  diff_counter : ℝ
  div_counter : ℝ
  death_counter : ℝ
  boolean_counter : ℕ
  jkr_force : Vec3
  motility_force : Vec3

/-- Modelled from the spec: the `apply_forces` wrapper around
`apply_forces_cpu` is not under `src/` (only the kernel is); per the spec,
"Force accumulators reset to zero after integration", it writes the new
locations computed by the kernel and zeroes both accumulators, touching no
other per-agent field. -/
noncomputable def apply_forces_step (viscosity : ℝ) (size : Vec3) (move_dt : ℝ)
    (a : Agent) : Agent :=
  { a with
    location := apply_forces_cpu a.jkr_force a.motility_force a.location a.radius
      viscosity size move_dt
    jkr_force := 0
    motility_force := 0 }

/-- C10. After the integration step both force accumulators are zero, and no
per-agent field other than the location (and the reset accumulators) is
modified: radius, motion flag, regulatory vector, phenotype state and all
four counters are unchanged. -/
theorem apply_forces_step_frame (viscosity : ℝ) (size : Vec3) (move_dt : ℝ) (a : Agent) :
    (apply_forces_step viscosity size move_dt a).jkr_force = 0 ∧
    (apply_forces_step viscosity size move_dt a).motility_force = 0 ∧
    (apply_forces_step viscosity size move_dt a).radius = a.radius ∧
    (apply_forces_step viscosity size move_dt a).motion = a.motion ∧
    (apply_forces_step viscosity size move_dt a).booleans = a.booleans ∧
    (apply_forces_step viscosity size move_dt a).state = a.state ∧
    (apply_forces_step viscosity size move_dt a).diff_counter = a.diff_counter ∧
    (apply_forces_step viscosity size move_dt a).div_counter = a.div_counter ∧
    (apply_forces_step viscosity size move_dt a).death_counter = a.death_counter ∧
    (apply_forces_step viscosity size move_dt a).boolean_counter = a.boolean_counter ∧
    (apply_forces_step viscosity size move_dt a).location
      = apply_forces_cpu a.jkr_force a.motility_force a.location a.radius viscosity size move_dt := by
  unfold apply_forces_step
  exact ⟨rfl, rfl, rfl, rfl, rfl, rfl, rfl, rfl, rfl, rfl, rfl⟩

/-! ## Agent-to-grid index mapping (C8)

`Cell.update_cell` (`Cell.py`, lines 196-207) maps the continuous location
to a diffusion-grid index per axis: floor division by half the grid spacing
followed by `math.ceil` of half the result. -/

/-- The index computation of `update_cell`:
`half_index = location // (step / 2)` then `index = ceil(half_index / 2)`. -/
noncomputable def grid_index (location step : ℝ) : ℤ :=
  ⌈(⌊location / (step / 2)⌋ : ℝ) / 2⌉

/-- C8. For a nonnegative coordinate and positive grid spacing, the two-stage
index computation equals the nearest grid index `round (location / step)`,
rounding half upward. -/
theorem grid_index_eq_round (location step : ℝ)
    (hloc : 0 ≤ location) (hstep : 0 < step) :
    grid_index location step = round (location / step) := by
  have hs : step ≠ 0 := ne_of_gt hstep
  have h2 : location / (step / 2) = 2 * (location / step) := by
    field_simp
    ring
  unfold grid_index
  rw [h2, round_eq]
  set t : ℝ := location / step with ht
  rcases Int.even_or_odd ⌊2 * t⌋ with ⟨q, hq⟩ | ⟨q, hq⟩
  · have hfloor : ⌊2 * t⌋ = 2 * q := by omega
    have h1 : (2 * q : ℝ) ≤ 2 * t := by
      have := Int.floor_le (2 * t)
      rw [hfloor] at this
      push_cast at this
      linarith
    have h2' : 2 * t < 2 * q + 1 := by
      have := Int.lt_floor_add_one (2 * t)
      rw [hfloor] at this
      push_cast at this
      linarith
    have hceil : ⌈(((2 * q : ℤ) : ℝ)) / 2⌉ = q := by
      push_cast
      rw [mul_comm, mul_div_assoc]
      norm_num
    rw [hfloor] at *
    rw [hceil]
    symm
    rw [Int.floor_eq_iff]
    constructor
    · push_cast; linarith
    · push_cast; linarith
  · have h1 : ((2 * q + 1 : ℤ) : ℝ) ≤ 2 * t := by
      have := Int.floor_le (2 * t)
      rw [hq] at this
      push_cast at this ⊢
      linarith
    have h2' : 2 * t < (2 * q + 1 : ℤ) + 1 := by
      have := Int.lt_floor_add_one (2 * t)
      rw [hq] at this
      push_cast at this ⊢
      linarith
    rw [hq]
    have hceil : ⌈((2 * q + 1 : ℤ) : ℝ) / 2⌉ = q + 1 := by
      push_cast
      rw [show ((2 : ℝ) * q + 1) / 2 = q + 1 / 2 by ring]
      rw [show (q : ℝ) + 1 / 2 = 1 / 2 + q by ring]
      rw [Int.ceil_add_int]
      have hhalf : ⌈(1:ℝ)/2⌉ = 1 := by
        rw [Int.ceil_eq_iff] <;> norm_num
      rw [hhalf]
      ring
    rw [hceil]
    symm
    rw [Int.floor_eq_iff]
    constructor
    · push_cast at h1 ⊢; linarith
    · push_cast at h2' ⊢; linarith

/-- Witness for C8: location `3`, spacing `2` gives index `2`, the nearest
grid point of `3/2` with half rounded up. -/
theorem grid_index_eq_round_witness :
    grid_index 3 2 = round ((3:ℝ) / 2) :=
  grid_index_eq_round 3 2 (by norm_num) (by norm_num)

/-! ## The regulatory network and the FGF4 field interaction (C9)

`Cell.boolean_function` (`Cell.py`, lines 111-133) evaluates five symbolic
rules (configuration strings) modulo `num_states`; the rules are modelled as
an abstract family `functions : Fin 5 → (Fin 5 → ℤ) → ℤ`.  The FGF4
interaction of `update_cell` (`Cell.py`, lines 209-234) conditionally
increments the grid cell at the agent, reads the signal, throttles the
network update and conditionally decrements the cell once. -/

/-- `Cell.boolean_function`: builds the input vector
`(fgf4_bool, booleans[0..3])`, applies each rule modulo `num_states`, and
returns the new regulatory vector together with the new FGF4 value. -/
def boolean_function (functions : Fin 5 → (Fin 5 → ℤ) → ℤ) (num_states : ℤ)
    (booleans : Fin 5 → ℤ) (fgf4_bool : ℤ) : (Fin 5 → ℤ) × ℤ :=
  let x : Fin 5 → ℤ := ![fgf4_bool, booleans 0, booleans 1, booleans 2, booleans 3]
  let new_booleans : Fin 5 → ℤ := fun i => functions i x % num_states
  (new_booleans, new_booleans 0)

/-- The FGF4 part of `Cell.update_cell` acting on the grid value at the
agent's grid cell: increment when below `maximum` and NANOG high
(`booleans[3] = 1`); read `fgf4_bool` from the updated value; run the
throttled network update; decrement once when FGFR was off, the resulting
FGF4 value is `1` and the cell still holds at least `1`.  Returns the new
grid value and the new regulatory vector. -/
def update_cell_fgf4 (functions : Fin 5 → (Fin 5 → ℤ) → ℤ) (num_states : ℤ)
    (maximum : ℤ) (boolean_thresh : ℕ) (booleans : Fin 5 → ℤ)
    (boolean_counter : ℕ) (value : ℤ) : ℤ × (Fin 5 → ℤ) :=
  let value1 := if value < maximum ∧ booleans 3 = 1 then value + 1 else value
  let fgf4_bool : ℤ := if value1 > 0 then 1 else 0
  let tempFGFR := booleans 0
  let step := if boolean_counter % boolean_thresh = 0
    then boolean_function functions num_states booleans fgf4_bool
    else (booleans, fgf4_bool)
  let value2 := if tempFGFR = 0 ∧ step.2 = 1 ∧ value1 ≥ 1 then value1 - 1 else value1
  (value2, step.1)

/-- `Gradient.update_grid` (`Gradient.py`, lines 50-64) on one grid patch:
degrade by one exactly when the patch holds at least `1`. -/
def update_grid_cell (value : ℤ) : ℤ :=
  if value ≥ 1 then value + (-1) else value

/-- C9. Both the agent-field interaction and the degradation pass preserve
`0 ≤ value ≤ capacity` at every grid cell: the agent increments only a cell
strictly below capacity with its NANOG marker set, decrements only a cell
holding at least `1`, and degradation subtracts `1` only from cells holding
at least `1`. -/
theorem fgf4_bounds_invariant (functions : Fin 5 → (Fin 5 → ℤ) → ℤ)
    (num_states maximum : ℤ) (boolean_thresh : ℕ) (booleans : Fin 5 → ℤ)
    (boolean_counter : ℕ) (value : ℤ)
    (h0 : 0 ≤ value) (hcap : value ≤ maximum) :
    (0 ≤ (update_cell_fgf4 functions num_states maximum boolean_thresh booleans
        boolean_counter value).1 ∧
      (update_cell_fgf4 functions num_states maximum boolean_thresh booleans
        boolean_counter value).1 ≤ maximum) ∧
    (0 ≤ update_grid_cell value ∧ update_grid_cell value ≤ maximum) := by
  constructor
  · unfold update_cell_fgf4
    set value1 := if value < maximum ∧ booleans 3 = 1 then value + 1 else value with hv1
    have hv1_lb : 0 ≤ value1 := by
      rw [hv1]; split <;> omega
    have hv1_ub : value1 ≤ maximum := by
      rw [hv1]; split <;> omega
    simp only []
    split <;> constructor <;> omega
  · unfold update_grid_cell
    constructor <;> split <;> omega

/-- Witness for C9: a cell holding `1` of capacity `2`, a NANOG-high agent
with FGFR off whose (constant-`1`) network consumes the signal: the value
stays within `[0, 2]`. -/
theorem fgf4_bounds_invariant_witness :
    (0 ≤ (update_cell_fgf4 (fun _ _ => 1) 2 2 1 (fun _ => 1) 0 1).1 ∧
      (update_cell_fgf4 (fun _ _ => 1) 2 2 1 (fun _ => 1) 0 1).1 ≤ 2) ∧
    (0 ≤ update_grid_cell 1 ∧ update_grid_cell 1 ≤ 2) :=
  fgf4_bounds_invariant (fun _ _ => 1) 2 2 1 (fun _ => 1) 0 1 (by norm_num) (by norm_num)

/-! ## Cells, random sphere points and division (C5)

`Cell.py` keeps cells as objects; `random_point` (lines 243-265) draws a
point of the unit sphere from one angle (2D, when `size[2] = 0`) or two
angles (3D); `Cell.divide` (lines 82-109) halves the parent's division
counter, zeroes the parent's throttle counter, and then resamples a child
location until it lies inside the domain.  The random stream is modelled as
a sequence of angle pairs, and the unbounded `while` loop as a fuel-indexed
search: `none` stands for the loop never finding an in-bounds point. -/

/-- A cell object of `Cell.py`: the `__init__` fields, with `force` and
`velocity` started at zero by the constructor. -/
structure Cell : Type where
  location : Vec3
  radius : ℝ
  motion : Bool
  booleans : Fin 5 → ℤ
  state : CellState
  diff_counter : ℝ
  div_counter : ℝ
  death_counter : ℝ
  boolean_counter : ℕ
  force : Vec3
  velocity : Vec3

/-- `random_point`: a point on the unit sphere centred at the origin, from
the angle `theta` (and `phi` in 3D); 2D exactly when `size[2] = 0`. -/
noncomputable def random_point (size : Vec3) (theta phi : ℝ) : Vec3 :=
  if size 2 = 0 then
    ![Real.cos theta, Real.sin theta, 0]
  else
    ![Real.cos phi * Real.cos theta, Real.cos phi * Real.sin theta, Real.sin phi]

lemma norm3_random_point (size : Vec3) (theta phi : ℝ) :
    norm3 (random_point size theta phi) = 1 := by
  unfold random_point norm3
  have h1 : Real.cos theta ^ 2 + Real.sin theta ^ 2 = 1 := Real.cos_sq_add_sin_sq theta
  have h2 : Real.cos phi ^ 2 + Real.sin phi ^ 2 = 1 := Real.cos_sq_add_sin_sq phi
  split
  · rw [show (![Real.cos theta, Real.sin theta, 0] : Vec3) 0 = Real.cos theta from rfl,
      show (![Real.cos theta, Real.sin theta, 0] : Vec3) 1 = Real.sin theta from rfl,
      show (![Real.cos theta, Real.sin theta, 0] : Vec3) 2 = 0 from rfl]
    rw [show Real.cos theta ^ 2 + Real.sin theta ^ 2 + (0:ℝ) ^ 2 = 1 by rw [← h1]; ring]
    exact Real.sqrt_one
  · rw [show (![Real.cos phi * Real.cos theta, Real.cos phi * Real.sin theta,
        Real.sin phi] : Vec3) 0 = Real.cos phi * Real.cos theta from rfl,
      show (![Real.cos phi * Real.cos theta, Real.cos phi * Real.sin theta,
        Real.sin phi] : Vec3) 1 = Real.cos phi * Real.sin theta from rfl,
      show (![Real.cos phi * Real.cos theta, Real.cos phi * Real.sin theta,
        Real.sin phi] : Vec3) 2 = Real.sin phi from rfl]
    rw [show (Real.cos phi * Real.cos theta) ^ 2 + (Real.cos phi * Real.sin theta) ^ 2 +
        Real.sin phi ^ 2 = 1 by nlinarith [h1, h2]]
    exact Real.sqrt_one

/-- The domain-membership test of `Cell.divide`:
`0 <= location[j] <= simulation.size[j]` on each axis. -/
def in_bounds (size location : Vec3) : Prop :=
  (0 ≤ location 0 ∧ location 0 ≤ size 0) ∧
  (0 ≤ location 1 ∧ location 1 ≤ size 1) ∧
  (0 ≤ location 2 ∧ location 2 ≤ size 2)

noncomputable instance (size location : Vec3) : Decidable (in_bounds size location) := by
  unfold in_bounds
  infer_instance

/-- One candidate child location of `Cell.divide`:
`self.location + random_point(simulation) * self.radius` for the `k`-th draw
of the angle stream. -/
noncomputable def divide_candidate (size parent_location : Vec3) (radius : ℝ)
    (angles : ℕ → ℝ × ℝ) (k : ℕ) : Vec3 :=
  parent_location + radius • random_point size (angles k).1 (angles k).2

/-- The resampling `while` loop of `Cell.divide`: keep drawing candidate
locations until one is in bounds; `none` when the given fuel runs out (the
source loop would simply keep running). -/
noncomputable def find_location (size parent_location : Vec3) (radius : ℝ)
    (angles : ℕ → ℝ × ℝ) : ℕ → ℕ → Option Vec3
  | _, 0 => none
  | k, Nat.succ fuel =>
    if in_bounds size (divide_candidate size parent_location radius angles k)
    then some (divide_candidate size parent_location radius angles k)
    else find_location size parent_location radius angles (k + 1) fuel

lemma find_location_spec (size parent_location : Vec3) (radius : ℝ)
    (angles : ℕ → ℝ × ℝ) :
    ∀ fuel k location,
      find_location size parent_location radius angles k fuel = some location →
      in_bounds size location ∧
      ∃ m, location = divide_candidate size parent_location radius angles m := by
  intro fuel
  induction fuel with
  | zero =>
    intro k location h
    simp [find_location] at h
  | succ fuel ih =>
    intro k location h
    rw [find_location] at h
    split at h
    · cases h
      exact ⟨by assumption, k, rfl⟩
    · exact ih (k + 1) location h

/-- `Cell.divide`: halve the parent's division counter and zero its throttle
counter, then run the resampling loop; on success the child is created from
the parent's post-update fields (so its division counter is the halved one
and its throttle counter is `0`) at the found location, with zero force and
velocity from the constructor. -/
noncomputable def Cell.divide (size : Vec3) (angles : ℕ → ℝ × ℝ) (fuel : ℕ)
    (self : Cell) : Cell × Option Cell :=
  ({ self with div_counter := self.div_counter * 0.5, boolean_counter := 0 },
   (find_location size self.location self.radius angles 0 fuel).map
     (fun location =>
       { location := location, radius := self.radius, motion := self.motion,
         booleans := self.booleans, state := self.state,
         diff_counter := self.diff_counter, div_counter := self.div_counter * 0.5,
         death_counter := self.death_counter, boolean_counter := 0,
         force := 0, velocity := 0 }))

/-- C5. Division sets the parent's division counter to exactly half its
pre-division value and zeroes the parent's throttle counter before the child
is created; whenever the resampling returns, the child's location is inside
the domain at distance exactly the parent's radius from the parent, and the
child inherits the parent's post-halving state. -/
theorem Cell.divide_spec (size : Vec3) (angles : ℕ → ℝ × ℝ) (fuel : ℕ) (self : Cell)
    (hradius : 0 ≤ self.radius) :
    ((Cell.divide size angles fuel self).1.div_counter = self.div_counter / 2 ∧
     (Cell.divide size angles fuel self).1.boolean_counter = 0) ∧
    (∀ child, (Cell.divide size angles fuel self).2 = some child →
      in_bounds size child.location ∧
      dist3 self.location child.location = self.radius ∧
      child.radius = self.radius ∧ child.motion = self.motion ∧
      child.booleans = self.booleans ∧ child.state = self.state ∧
      child.diff_counter = self.diff_counter ∧
      child.div_counter = self.div_counter / 2 ∧
      child.death_counter = self.death_counter ∧
      child.boolean_counter = 0) := by
  have hhalf : self.div_counter * 0.5 = self.div_counter / 2 := by ring
  unfold Cell.divide
  refine ⟨⟨hhalf, rfl⟩, fun child h => ?_⟩
  simp only [Option.map_eq_some'] at h
  obtain ⟨location, hfind, hchild⟩ := h
  obtain ⟨hin, m, hm⟩ :=
    find_location_spec size self.location self.radius angles fuel 0 location hfind
  subst hchild
  refine ⟨hin, ?_, rfl, rfl, rfl, rfl, rfl, hhalf, rfl, rfl⟩
  show dist3 self.location location = self.radius
  rw [hm]
  unfold divide_candidate dist3
  have hsub : (self.location + self.radius • random_point size (angles m).1 (angles m).2)
      - self.location = self.radius • random_point size (angles m).1 (angles m).2 := by
    funext i
    simp only [Vec3.sub_apply, Vec3.add_apply, Vec3.smul_apply]
    ring
  rw [hsub, norm3_smul, norm3_random_point, mul_one, abs_of_nonneg hradius]

/-- Witness for C5: a 2D parent of radius `1` at the centre of a `10 × 10`
domain with the constant angle stream `θ = 0` divides with fuel `1`. -/
theorem Cell.divide_spec_witness :
    ((Cell.divide (![10, 10, 0]) (fun _ => (0, 0)) 1
        ⟨![5, 5, 0], 1, true, fun _ => 0, CellState.Pluripotent, 0, 8, 0, 3, 0, 0⟩).1.div_counter
        = (8 : ℝ) / 2 ∧
     (Cell.divide (![10, 10, 0]) (fun _ => (0, 0)) 1
        ⟨![5, 5, 0], 1, true, fun _ => 0, CellState.Pluripotent, 0, 8, 0, 3, 0, 0⟩).1.boolean_counter
        = 0) ∧
    (∀ child, (Cell.divide (![10, 10, 0]) (fun _ => (0, 0)) 1
        ⟨![5, 5, 0], 1, true, fun _ => 0, CellState.Pluripotent, 0, 8, 0, 3, 0, 0⟩).2 = some child →
      in_bounds (![10, 10, 0]) child.location ∧
      dist3 (![5, 5, 0]) child.location = 1 ∧
      child.radius = 1 ∧ child.motion = true ∧
      child.booleans = (fun _ => 0) ∧ child.state = CellState.Pluripotent ∧
      child.diff_counter = 0 ∧
      child.div_counter = (8 : ℝ) / 2 ∧
      child.death_counter = 0 ∧
      child.boolean_counter = 0) :=
  Cell.divide_spec (![10, 10, 0]) (fun _ => (0, 0)) 1
    ⟨![5, 5, 0], 1, true, fun _ => 0, CellState.Pluripotent, 0, 8, 0, 3, 0, 0⟩ zero_le_one

/-! ## Motility (C6)

`Cell.motility` (`Cell.py`, lines 41-80) forces an agent with at least one
NeighborGraph neighbor to stop moving; a still-moving Pluripotent agent with
`booleans[2] = 1` is pushed toward the nearest differentiated cell when
`guye_move` is set and differentiated cells exist, and in a random unit
direction otherwise.  The nearest-cell loop reads
`simulation.diff_cells[i].locationn` for `i ≥ 1` — an attribute no `Cell`
object defines — so a second differentiated cell raises `AttributeError`;
the embedding returns `none` for that crash (and for the unreachable empty
list inside the guarded branch).  `diff_cells` is the list of differentiated
cell locations in simulation order and `rand_dir` the `random_point` draw
used by the random branches. -/

/-- `Cell.motility`: neighbor check, then the chemotactic or random force.
`none` models the `AttributeError` raised by the `.locationn` read in the
loop over the second and later differentiated cells. -/
noncomputable def Cell.motility (neighbors_count : ℕ) (guye_move : Bool)
    (diff_cells : List Vec3) (motility_force : ℝ) (rand_dir : Vec3)
    (self : Cell) : Option Cell :=
  let self1 := if neighbors_count ≥ 1 then { self with motion := false } else self
  if self1.motion = true then
    if self1.booleans 2 = 1 ∧ self1.state = CellState.Pluripotent then
      if guye_move = true ∧ diff_cells.length ≠ 0 then
        match diff_cells with
        | [] => none
        | [diff_location] =>
            let vector := diff_location - self1.location
            let magnitude := norm3 vector
            let normal : Vec3 := fun i => vector i / magnitude
            some { self1 with force := self1.force + motility_force • normal }
        | _ :: _ :: _ => none
      else
        some { self1 with force := self1.force + motility_force • rand_dir }
    else
      some { self1 with force := self1.force + motility_force • rand_dir }
  else some self1

/-- C6, the divergence: a moving Pluripotent cell with its motion marker
set, chemotactic mode on and two differentiated cells present crashes on the
`.locationn` attribute read instead of stepping toward the nearer one. -/
theorem Cell.motility_locationn_crash :
    Cell.motility 0 true [![0, 0, 0], ![2, 0, 0]] 1 (fun _ => 0)
      ⟨![1, 0, 0], 1, true, fun _ => 1, CellState.Pluripotent, 0, 0, 0, 0, 0, 0⟩ = none := by
  rfl

/-- C6, the part of the claim the code does satisfy: an agent with one or
more NeighborGraph neighbors has its motion flag cleared and receives no
motility force this step. -/
theorem Cell.motility_neighbor_stops (neighbors_count : ℕ) (guye_move : Bool)
    (diff_cells : List Vec3) (motility_force : ℝ) (rand_dir : Vec3) (self : Cell)
    (hn : 1 ≤ neighbors_count) :
    Cell.motility neighbors_count guye_move diff_cells motility_force rand_dir self
      = some { self with motion := false } := by
  unfold Cell.motility
  have h1 : neighbors_count ≥ 1 := hn
  rw [if_pos h1]
  rfl

/-! ## The diffusion solver sub-step (C4)

`update_diffusion_jit` (`backend.py`, lines 586-618) works on a 2D array
with one ring of border cells around an `m × n` interior (rows `0..m+1`,
columns `0..n+1`); every sub-step first overwrites the two border columns
and then the two border rows with their nearest neighbors (in the order of
the four numpy assignments, each reading the state left by the previous
one), and then replaces the interior with the 5-point stencil
`b·base + a·(south + north + east + west)`, `b = 1 − 4a`, all four
neighbor reads taken from the pre-update (post-reflection) values. -/

/-- The four border assignments of a sub-step, in source order:
`base[:,0] = base[:,1]`, `base[:,-1] = base[:,-2]`, `base[0,:] = base[1,:]`,
`base[-1,:] = base[-2,:]`, each applied to the state the previous one left. -/
noncomputable def reflect_edges (m n : ℕ) (g : ℕ → ℕ → ℝ) : ℕ → ℕ → ℝ :=
  let g1 : ℕ → ℕ → ℝ := fun i j => if j = 0 then g i 1 else g i j
  let g2 : ℕ → ℕ → ℝ := fun i j => if j = n + 1 then g1 i n else g1 i j
  let g3 : ℕ → ℕ → ℝ := fun i j => if i = 0 then g2 1 j else g2 i j
  fun i j => if i = m + 1 then g3 m j else g3 i j

lemma reflect_edges_interior (m n : ℕ) (g : ℕ → ℕ → ℝ) (i j : ℕ)
    (hi1 : 1 ≤ i) (hi2 : i ≤ m) (hj1 : 1 ≤ j) (hj2 : j ≤ n) :
    reflect_edges m n g i j = g i j := by
  unfold reflect_edges
  simp only []
  split_ifs <;> first | rfl | omega | exact False.elim (by assumption)

lemma reflect_edges_top (m n : ℕ) (g : ℕ → ℕ → ℝ) (j : ℕ)
    (hj1 : 1 ≤ j) (hj2 : j ≤ n) :
    reflect_edges m n g 0 j = g 1 j := by
  unfold reflect_edges
  simp only []
  split_ifs <;> first | rfl | omega | exact False.elim (by assumption)

lemma reflect_edges_bottom (m n : ℕ) (g : ℕ → ℕ → ℝ) (j : ℕ)
    (hm : 1 ≤ m) (hj1 : 1 ≤ j) (hj2 : j ≤ n) :
    reflect_edges m n g (m + 1) j = g m j := by
  unfold reflect_edges
  simp only []
  split_ifs <;> first | rfl | omega | exact False.elim (by assumption)

lemma reflect_edges_left (m n : ℕ) (g : ℕ → ℕ → ℝ) (i : ℕ)
    (hi1 : 1 ≤ i) (hi2 : i ≤ m) :
    reflect_edges m n g i 0 = g i 1 := by
  unfold reflect_edges
  simp only []
  split_ifs <;> first | rfl | omega | exact False.elim (by assumption)

lemma reflect_edges_right (m n : ℕ) (g : ℕ → ℕ → ℝ) (i : ℕ)
    (hi1 : 1 ≤ i) (hi2 : i ≤ m) (hn : 1 ≤ n) :
    reflect_edges m n g i (n + 1) = g i n := by
  unfold reflect_edges
  simp only []
  split_ifs <;> first | rfl | omega | exact False.elim (by assumption)

/-- One sub-step of `update_diffusion_jit`: reflect the borders, then apply
the 5-point stencil with coefficient `a` on the interior
(`1 ≤ i ≤ m`, `1 ≤ j ≤ n`), reading all neighbor values from the
post-reflection state. -/
noncomputable def update_diffusion_sub_step (m n : ℕ) (a : ℝ) (g : ℕ → ℕ → ℝ) :
    ℕ → ℕ → ℝ :=
  fun i j =>
    if 1 ≤ i ∧ i ≤ m ∧ 1 ≤ j ∧ j ≤ n then
      (1 - 4 * a) * reflect_edges m n g i j +
        a * (reflect_edges m n g (i + 1) j + reflect_edges m n g (i - 1) j +
             reflect_edges m n g i (j + 1) + reflect_edges m n g i (j - 1))
    else reflect_edges m n g i j

/-- Total concentration over the interior region. -/
noncomputable def interior_sum (m n : ℕ) (g : ℕ → ℕ → ℝ) : ℝ :=
  ∑ i in Finset.Icc 1 m, ∑ j in Finset.Icc 1 n, g i j

lemma sum_shift_up (f : ℕ → ℝ) (m : ℕ) :
    ∑ i in Finset.Icc 1 m, f (i + 1)
      = (∑ i in Finset.Icc 1 m, f i) - f 1 + f (m + 1) := by
  induction m with
  | zero =>
    rw [Finset.Icc_eq_empty (by omega)]
    simp
  | succ m ih =>
    rw [Finset.sum_Icc_succ_top (by omega), Finset.sum_Icc_succ_top (by omega), ih]
    ring

lemma sum_shift_down (f : ℕ → ℝ) (m : ℕ) :
    ∑ i in Finset.Icc 1 m, f (i - 1)
      = (∑ i in Finset.Icc 1 m, f i) - f m + f 0 := by
  induction m with
  | zero =>
    rw [Finset.Icc_eq_empty (by omega)]
    simp
  | succ m ih =>
    rw [Finset.sum_Icc_succ_top (by omega), Finset.sum_Icc_succ_top (by omega), ih]
    have hms : m + 1 - 1 = m := by omega
    rw [hms]
    ring

lemma sum_shift_reflect (f : ℕ → ℝ) (m : ℕ) (h0 : f 0 = f 1) (h1 : f (m + 1) = f m) :
    (∑ i in Finset.Icc 1 m, (f (i + 1) + f (i - 1)))
      = 2 * ∑ i in Finset.Icc 1 m, f i := by
  rw [Finset.sum_add_distrib, sum_shift_up, sum_shift_down, h0, h1]
  ring

/-- C4. With the diffusion coefficient `a = diffuse_dt·diffuse_const/spat_res2`
and no source terms, one solver sub-step (border reflection followed by the
5-point stencil) leaves the total concentration over the interior region
exactly unchanged, for every grid with nonnegative values. -/
theorem update_diffusion_mass_conserved (m n : ℕ)
    (a diffuse_dt diffuse_const spat_res2 : ℝ) (g : ℕ → ℕ → ℝ)
    (hnonneg : ∀ i j, 0 ≤ g i j)
    (ha : a = diffuse_dt * diffuse_const / spat_res2) :
    interior_sum m n (update_diffusion_sub_step m n a g) = interior_sum m n g := by
  rcases Nat.eq_zero_or_pos m with hm | hm
  · unfold interior_sum
    rw [hm, Finset.Icc_eq_empty (by omega), Finset.sum_empty, Finset.sum_empty]
  rcases Nat.eq_zero_or_pos n with hn | hn
  · unfold interior_sum
    rw [hn]
    rw [show Finset.Icc 1 0 = (∅ : Finset ℕ) from Finset.Icc_eq_empty (by omega)]
    simp
  have hstep : ∀ i ∈ Finset.Icc 1 m, ∀ j ∈ Finset.Icc 1 n,
      update_diffusion_sub_step m n a g i j
        = (1 - 4 * a) * reflect_edges m n g i j +
            a * (reflect_edges m n g (i + 1) j + reflect_edges m n g (i - 1) j +
                 reflect_edges m n g i (j + 1) + reflect_edges m n g i (j - 1)) := by
    intro i hi j hj
    rw [Finset.mem_Icc] at hi hj
    unfold update_diffusion_sub_step
    rw [if_pos ⟨hi.1, hi.2, hj.1, hj.2⟩]
  have hLHS : interior_sum m n (update_diffusion_sub_step m n a g)
      = ∑ i in Finset.Icc 1 m, ∑ j in Finset.Icc 1 n,
          ((1 - 4 * a) * reflect_edges m n g i j +
            a * (reflect_edges m n g (i + 1) j + reflect_edges m n g (i - 1) j +
                 reflect_edges m n g i (j + 1) + reflect_edges m n g i (j - 1))) := by
    unfold interior_sum
    exact Finset.sum_congr rfl fun i hi => Finset.sum_congr rfl fun j hj => hstep i hi j hj
  have hS : ∑ i in Finset.Icc 1 m, ∑ j in Finset.Icc 1 n, reflect_edges m n g i j
      = interior_sum m n g := by
    unfold interior_sum
    refine Finset.sum_congr rfl fun i hi => Finset.sum_congr rfl fun j hj => ?_
    rw [Finset.mem_Icc] at hi hj
    exact reflect_edges_interior m n g i j hi.1 hi.2 hj.1 hj.2
  have hcol : ∀ j ∈ Finset.Icc 1 n,
      (∑ i in Finset.Icc 1 m, (reflect_edges m n g (i + 1) j + reflect_edges m n g (i - 1) j))
        = 2 * ∑ i in Finset.Icc 1 m, reflect_edges m n g i j := by
    intro j hj
    rw [Finset.mem_Icc] at hj
    apply sum_shift_reflect (fun i => reflect_edges m n g i j) m
    · rw [reflect_edges_top m n g j hj.1 hj.2,
        reflect_edges_interior m n g 1 j le_rfl hm hj.1 hj.2]
    · rw [reflect_edges_bottom m n g j hm hj.1 hj.2,
        reflect_edges_interior m n g m j hm le_rfl hj.1 hj.2]
  have hrow : ∀ i ∈ Finset.Icc 1 m,
      (∑ j in Finset.Icc 1 n, (reflect_edges m n g i (j + 1) + reflect_edges m n g i (j - 1)))
        = 2 * ∑ j in Finset.Icc 1 n, reflect_edges m n g i j := by
    intro i hi
    rw [Finset.mem_Icc] at hi
    apply sum_shift_reflect (fun j => reflect_edges m n g i j) n
    · rw [reflect_edges_left m n g i hi.1 hi.2,
        reflect_edges_interior m n g i 1 hi.1 hi.2 le_rfl hn]
    · rw [reflect_edges_right m n g i hi.1 hi.2 hn,
        reflect_edges_interior m n g i n hi.1 hi.2 hn le_rfl]
  have e2 : ∑ i in Finset.Icc 1 m, ∑ j in Finset.Icc 1 n,
      (reflect_edges m n g (i + 1) j + reflect_edges m n g (i - 1) j)
        = 2 * ∑ i in Finset.Icc 1 m, ∑ j in Finset.Icc 1 n, reflect_edges m n g i j := by
    rw [Finset.sum_comm]
    rw [Finset.sum_congr rfl hcol]
    rw [← Finset.mul_sum, Finset.sum_comm]
  have e3 : ∑ i in Finset.Icc 1 m, ∑ j in Finset.Icc 1 n,
      (reflect_edges m n g i (j + 1) + reflect_edges m n g i (j - 1))
        = 2 * ∑ i in Finset.Icc 1 m, ∑ j in Finset.Icc 1 n, reflect_edges m n g i j := by
    rw [Finset.sum_congr rfl hrow]
    rw [← Finset.mul_sum]
  have e1 : ∑ i in Finset.Icc 1 m, ∑ j in Finset.Icc 1 n,
      ((1 - 4 * a) * reflect_edges m n g i j +
        a * (reflect_edges m n g (i + 1) j + reflect_edges m n g (i - 1) j +
             reflect_edges m n g i (j + 1) + reflect_edges m n g i (j - 1)))
      = (1 - 4 * a) * (∑ i in Finset.Icc 1 m, ∑ j in Finset.Icc 1 n, reflect_edges m n g i j)
        + a * (∑ i in Finset.Icc 1 m, ∑ j in Finset.Icc 1 n,
            (reflect_edges m n g (i + 1) j + reflect_edges m n g (i - 1) j))
        + a * (∑ i in Finset.Icc 1 m, ∑ j in Finset.Icc 1 n,
            (reflect_edges m n g i (j + 1) + reflect_edges m n g i (j - 1))) := by
    rw [Finset.mul_sum, Finset.mul_sum, Finset.mul_sum, ← Finset.sum_add_distrib,
      ← Finset.sum_add_distrib]
    refine Finset.sum_congr rfl fun i _ => ?_
    rw [Finset.mul_sum, Finset.mul_sum, Finset.mul_sum, ← Finset.sum_add_distrib,
      ← Finset.sum_add_distrib]
    refine Finset.sum_congr rfl fun j _ => ?_
    ring
  rw [hLHS, e1, e2, e3, hS]
  ring

/-- Witness for C4: the constant-`1` grid with a `1 × 1` interior and
coefficient `a = 1·1/1` keeps its interior total. -/
theorem update_diffusion_mass_conserved_witness :
    interior_sum 1 1 (update_diffusion_sub_step 1 1 1 (fun _ _ => 1))
      = interior_sum 1 1 (fun _ _ => 1) :=
  update_diffusion_mass_conserved 1 1 1 1 1 1 (fun _ _ => 1)
    (fun _ _ => zero_le_one) (by norm_num)

/-! ## The JKR contact force kernel (C1)

`jkr_forces_cpu` (`backend.py`, lines 346-397) processes each adhesion edge
`(cell_1, cell_2)`: it computes the center-to-center vector and its
magnitude, the overlap, the effective modulus and radius, the
nondimensionalizing overlap scale and the nondimensional overlap `d`; when
`d > −0.360562` it adds the polynomial JKR force along the normalized
center vector to `cell_1` and subtracts it from `cell_2` (sequential
in-place updates of the force array), using the zero vector when the
magnitude is zero; otherwise it marks the edge for deletion. -/

/-- One edge of `jkr_forces_cpu` acting on the force-accumulator array:
returns the updated array and the `delete_edges` flag for this edge. -/
noncomputable def jkr_forces_edge (locations : ℕ → Vec3) (radii : ℕ → ℝ)
    (poisson youngs adhesion_const : ℝ) (jkr_forces : ℕ → Vec3)
    (edge : ℕ × ℕ) : (ℕ → Vec3) × Bool :=
  let cell_1 := edge.1
  let cell_2 := edge.2
  let vector := locations cell_1 - locations cell_2
  let mag := norm3 vector
  let overlap := radii cell_1 + radii cell_2 - mag
  let e_hat := (((1 - poisson ^ 2) / youngs) + ((1 - poisson ^ 2) / youngs))⁻¹
  let r_hat := ((1 / radii cell_1) + (1 / radii cell_2))⁻¹
  let overlap_ := ((Real.pi * adhesion_const / e_hat) ^ ((2:ℝ)/3)) * (r_hat ^ ((1:ℝ)/3))
  let d := overlap / overlap_
  if d > -0.360562 then
    let f := (-0.0204) * d ^ 3 + 0.4942 * d ^ 2 + 1.0801 * d - 1.324
    let jkr_force := f * Real.pi * adhesion_const * r_hat
    let normal : Vec3 := if mag ≠ 0 then (fun i => vector i / mag) else 0
    let forces1 := Function.update jkr_forces cell_1 (jkr_forces cell_1 + jkr_force • normal)
    let forces2 := Function.update forces1 cell_2 (forces1 cell_2 - jkr_force • normal)
    (forces2, false)
  else (jkr_forces, true)

/-- C1. For an adhesion edge with the overlap, effective modulus `ê`,
effective radius `r̂`, scale `overlap*`, nondimensional overlap `d`,
polynomial value `f(d)` and physical force `F = f(d)·π·w·r̂` as the claim
defines them: when `d > −0.360562` the force `F` is added along the unit
center vector to `cell_1`'s accumulator and subtracted from `cell_2`'s,
leaving every other accumulator alone (so simultaneous bonds superpose),
and a zero distance gives the zero direction and leaves both accumulators
unchanged; when `d ≤ −0.360562` no force is applied and the edge is marked
for deletion. -/
theorem jkr_forces_edge_spec (locations : ℕ → Vec3) (radii : ℕ → ℝ)
    (poisson youngs adhesion_const : ℝ) (jkr_forces : ℕ → Vec3)
    (cell_1 cell_2 : ℕ) (hne : cell_1 ≠ cell_2)
    (mag overlap e_hat r_hat overlap_ d fd F : ℝ) (normal : Vec3)
    (hmag : mag = norm3 (locations cell_1 - locations cell_2))
    (hoverlap : overlap = radii cell_1 + radii cell_2 - mag)
    (he : e_hat = (((1 - poisson ^ 2) / youngs) + ((1 - poisson ^ 2) / youngs))⁻¹)
    (hrh : r_hat = ((1 / radii cell_1) + (1 / radii cell_2))⁻¹)
    (hos : overlap_ = ((Real.pi * adhesion_const / e_hat) ^ ((2:ℝ)/3)) * (r_hat ^ ((1:ℝ)/3)))
    (hd : d = overlap / overlap_)
    (hfd : fd = (-0.0204) * d ^ 3 + 0.4942 * d ^ 2 + 1.0801 * d - 1.324)
    (hF : F = fd * Real.pi * adhesion_const * r_hat)
    (hnormal : normal = if mag ≠ 0
      then (fun i => (locations cell_1 - locations cell_2) i / mag) else 0) :
    (d > -0.360562 →
      ((jkr_forces_edge locations radii poisson youngs adhesion_const jkr_forces
          (cell_1, cell_2)).2 = false ∧
       (jkr_forces_edge locations radii poisson youngs adhesion_const jkr_forces
          (cell_1, cell_2)).1 cell_1 = jkr_forces cell_1 + F • normal ∧
       (jkr_forces_edge locations radii poisson youngs adhesion_const jkr_forces
          (cell_1, cell_2)).1 cell_2 = jkr_forces cell_2 - F • normal ∧
       (∀ k, k ≠ cell_1 → k ≠ cell_2 →
         (jkr_forces_edge locations radii poisson youngs adhesion_const jkr_forces
           (cell_1, cell_2)).1 k = jkr_forces k) ∧
       (mag = 0 →
         (jkr_forces_edge locations radii poisson youngs adhesion_const jkr_forces
           (cell_1, cell_2)).1 = jkr_forces))) ∧
    (d ≤ -0.360562 →
      ((jkr_forces_edge locations radii poisson youngs adhesion_const jkr_forces
          (cell_1, cell_2)).1 = jkr_forces ∧
       (jkr_forces_edge locations radii poisson youngs adhesion_const jkr_forces
          (cell_1, cell_2)).2 = true)) := by
  subst hoverlap hd hfd hF hnormal hmag he hrh hos
  unfold jkr_forces_edge
  constructor
  · intro hgt
    rw [if_pos hgt]
    refine ⟨rfl, ?_, ?_, ?_, ?_⟩
    · show Function.update _ cell_2 _ cell_1 = _
      rw [Function.update_noteq hne, Function.update_same]
    · show Function.update _ cell_2 _ cell_2 = _
      rw [Function.update_same, Function.update_noteq (Ne.symm hne)]
    · intro k hk1 hk2
      show Function.update _ cell_2 _ k = _
      rw [Function.update_noteq hk2, Function.update_noteq hk1]
    · intro hmag0
      have hnz : ¬ (norm3 (locations cell_1 - locations cell_2) ≠ 0) := by
        simp [hmag0]
      rw [if_neg hnz]
      have hz : ∀ c : ℝ, c • (0 : Vec3) = 0 := fun c => by funext i; simp
      have hadd : ∀ v : Vec3, v + 0 = v := fun v => by funext i; simp
      have hsub : ∀ v : Vec3, v - 0 = v := fun v => by funext i; simp
      simp only [hz, hadd, hsub, Function.update_eq_self]
  · intro hle
    rw [if_neg (by linarith)]
    exact ⟨rfl, rfl⟩

/-- Witness for C1: two unit-radius cells at the same point (zero distance)
with `ν = 0`, `E = 1`, `w = 1`: the nondimensional overlap is positive, the
direction is the zero vector, and both accumulators are unchanged while the
edge is kept. -/
theorem jkr_forces_edge_spec_witness :
    (jkr_forces_edge (fun _ => 0) (fun _ => 1) 0 1 1 (fun _ => 0) (0, 1)).1 = (fun _ => 0) ∧
    (jkr_forces_edge (fun _ => 0) (fun _ => 1) 0 1 1 (fun _ => 0) (0, 1)).2 = false := by
  have h := jkr_forces_edge_spec (fun _ => 0) (fun _ => 1) 0 1 1 (fun _ => 0) 0 1
    (by norm_num)
    0 2 ((1:ℝ)/2) ((1:ℝ)/2)
    ((Real.pi * 1 / ((1:ℝ)/2)) ^ ((2:ℝ)/3) * ((1:ℝ)/2) ^ ((1:ℝ)/3))
    (2 / ((Real.pi * 1 / ((1:ℝ)/2)) ^ ((2:ℝ)/3) * ((1:ℝ)/2) ^ ((1:ℝ)/3)))
    ((-0.0204) * (2 / ((Real.pi * 1 / ((1:ℝ)/2)) ^ ((2:ℝ)/3) * ((1:ℝ)/2) ^ ((1:ℝ)/3))) ^ 3 +
      0.4942 * (2 / ((Real.pi * 1 / ((1:ℝ)/2)) ^ ((2:ℝ)/3) * ((1:ℝ)/2) ^ ((1:ℝ)/3))) ^ 2 +
      1.0801 * (2 / ((Real.pi * 1 / ((1:ℝ)/2)) ^ ((2:ℝ)/3) * ((1:ℝ)/2) ^ ((1:ℝ)/3))) - 1.324)
    (((-0.0204) * (2 / ((Real.pi * 1 / ((1:ℝ)/2)) ^ ((2:ℝ)/3) * ((1:ℝ)/2) ^ ((1:ℝ)/3))) ^ 3 +
      0.4942 * (2 / ((Real.pi * 1 / ((1:ℝ)/2)) ^ ((2:ℝ)/3) * ((1:ℝ)/2) ^ ((1:ℝ)/3))) ^ 2 +
      1.0801 * (2 / ((Real.pi * 1 / ((1:ℝ)/2)) ^ ((2:ℝ)/3) * ((1:ℝ)/2) ^ ((1:ℝ)/3))) - 1.324) *
        Real.pi * 1 * ((1:ℝ)/2))
    0
    (by unfold norm3; simp)
    (by norm_num)
    (by norm_num)
    (by norm_num)
    rfl rfl rfl rfl
    (by simp)
  have hdpos : (0:ℝ) ≤ 2 / ((Real.pi * 1 / ((1:ℝ)/2)) ^ ((2:ℝ)/3) * ((1:ℝ)/2) ^ ((1:ℝ)/3)) := by
    apply div_nonneg (by norm_num)
    apply mul_nonneg
    · exact Real.rpow_nonneg (by positivity) _
    · exact Real.rpow_nonneg (by norm_num) _
  have hres := h.1 (by linarith)
  exact ⟨hres.2.2.2.2 rfl, hres.1⟩

/-! ## The binned neighbor kernels (C7, C2)

`get_neighbors_cpu` (`backend.py`, lines 118-166) scans, for each focus
agent, its own bin and the 26 surrounding bins in loop order
(`i`, `j`, `k` each over `-1, 0, 1`), tests each candidate with
`distance(focus, current) ≤ radius and focus < current`, writes the edge at
slot `focus·max_neighbors + cell_edge_count` while the running count is
below `max_neighbors`, always increments the count, and finally reports the
count in `edge_count[focus]`.  Bin coordinates are modelled as `ℤ³` with a
total bin-contents function, which subsumes the one-layer ghost padding of
the source (a 27-neighborhood read can never leave the array); the edge
buffer is modelled as the list of writes actually performed, in slot
order. -/

/-- A bin coordinate (with componentwise addition from the product
instances). -/
abbrev Int3 : Type := ℤ × ℤ × ℤ

/-- The 27 bin offsets in the loop order of the source (`i` outer, `j`,
`k` inner, each running over `-1, 0, 1`). -/
def binOffsets : List Int3 :=
  [-1, 0, 1].flatMap fun i => [-1, 0, 1].flatMap fun j => [-1, 0, 1].map fun k => (i, j, k)

lemma mem_binOffsets (off : Int3) :
    off ∈ binOffsets ↔
      (-1 ≤ off.1 ∧ off.1 ≤ 1) ∧ (-1 ≤ off.2.1 ∧ off.2.1 ≤ 1) ∧
      (-1 ≤ off.2.2 ∧ off.2.2 ≤ 1) := by
  unfold binOffsets
  simp only [List.mem_flatMap, List.mem_map, List.mem_cons, List.not_mem_nil, or_false]
  constructor
  · rintro ⟨i, hi, j, hj, k, hk, rfl⟩
    rcases hi with rfl | rfl | rfl <;> rcases hj with rfl | rfl | rfl <;>
      rcases hk with rfl | rfl | rfl <;> decide
  · rintro ⟨⟨h1a, h1b⟩, ⟨h2a, h2b⟩, ⟨h3a, h3b⟩⟩
    refine ⟨off.1, by omega, off.2.1, by omega, off.2.2, by omega, rfl⟩

lemma binOffsets_nodup : binOffsets.Nodup := by decide

/-- The candidate list a focus agent scans: the contents of the 27
surrounding bins, concatenated in loop order. -/
def bin_candidates (bins : Int3 → List ℕ) (c : Int3) : List ℕ :=
  binOffsets.flatMap fun off => bins (c + off)

lemma mem_bin_candidates (bins : Int3 → List ℕ) (c : Int3) (a : ℕ) :
    a ∈ bin_candidates bins c ↔ ∃ off ∈ binOffsets, a ∈ bins (c + off) := by
  unfold bin_candidates
  exact List.mem_flatMap

/-- The per-candidate loop body of `get_neighbors_cpu` over one focus
agent's candidate list: writing is conditional on the running count being
below `max_neighbors`, counting is not.  Returns the performed writes in
slot order together with the final `cell_edge_count`. -/
def edge_scan (pred : ℕ → Bool) (candidates : List ℕ) (max_neighbors : ℕ) :
    List ℕ × ℕ :=
  candidates.foldl
    (fun acc current =>
      if pred current = true then
        (if acc.2 < max_neighbors then acc.1 ++ [current] else acc.1, acc.2 + 1)
      else acc)
    ([], 0)

lemma edge_scan_go (pred : ℕ → Bool) (max_neighbors : ℕ) :
    ∀ (candidates : List ℕ) (w : List ℕ) (c : ℕ),
      List.foldl
        (fun acc current =>
          if pred current = true then
            (if acc.2 < max_neighbors then acc.1 ++ [current] else acc.1, acc.2 + 1)
          else acc)
        (w, c) candidates
      = (w ++ (candidates.filter pred).take (max_neighbors - c),
         c + (candidates.filter pred).length) := by
  intro candidates
  induction candidates with
  | nil =>
    intro w c
    simp
  | cons a l ih =>
    intro w c
    simp only [List.foldl_cons]
    by_cases hp : pred a = true
    · rw [if_pos hp]
      by_cases hc : c < max_neighbors
      · rw [if_pos hc, ih]
        rw [List.filter_cons_of_pos hp]
        simp only [Prod.mk.injEq]
        constructor
        · rw [show max_neighbors - c = (max_neighbors - (c + 1)) + 1 by omega,
            List.take_succ_cons, List.append_assoc, List.singleton_append]
        · rw [List.length_cons]
          omega
      · rw [if_neg hc, ih]
        rw [List.filter_cons_of_pos hp]
        simp only [Prod.mk.injEq]
        constructor
        · rw [show max_neighbors - c = 0 by omega, show max_neighbors - (c + 1) = 0 by omega]
          simp
        · rw [List.length_cons]
          omega
    · rw [if_neg hp, ih, List.filter_cons_of_neg hp]

lemma edge_scan_eq (pred : ℕ → Bool) (candidates : List ℕ) (max_neighbors : ℕ) :
    edge_scan pred candidates max_neighbors
      = ((candidates.filter pred).take max_neighbors,
         (candidates.filter pred).length) := by
  unfold edge_scan
  rw [edge_scan_go]
  simp

/-- The candidate test of `get_neighbors_cpu`:
`np.linalg.norm(locations[current] - locations[focus]) <= distance and
focus < current`. -/
noncomputable def neighbor_test (locations : ℕ → Vec3) (distance : ℝ) (focus : ℕ) :
    ℕ → Bool :=
  fun current =>
    decide (dist3 (locations focus) (locations current) ≤ distance ∧ focus < current)

/-- One focus agent of `get_neighbors_cpu`: scan the 27 surrounding bins in
loop order, apply the candidate test, write while below capacity, count
always.  Returns the written neighbors in slot order (the write at position
`t` goes to buffer slot `focus·max_neighbors + t`) and the reported
`edge_count[focus]`. -/
noncomputable def get_neighbors_focus (bin_locations : ℕ → Int3) (locations : ℕ → Vec3)
    (bins : Int3 → List ℕ) (distance : ℝ) (max_neighbors : ℕ) (focus : ℕ) :
    List ℕ × ℕ :=
  edge_scan (neighbor_test locations distance focus)
    (bin_candidates bins (bin_locations focus)) max_neighbors

/-- The edge list `get_neighbors_cpu` produces: every written
`(focus, current)` pair over all focus agents. -/
noncomputable def get_neighbors_cpu (number_agents : ℕ) (bin_locations : ℕ → Int3)
    (locations : ℕ → Vec3) (bins : Int3 → List ℕ) (distance : ℝ)
    (max_neighbors : ℕ) : List (ℕ × ℕ) :=
  (List.range number_agents).flatMap fun focus =>
    ((get_neighbors_focus bin_locations locations bins distance max_neighbors focus).1).map
      fun current => (focus, current)

/-- C7. For every focus agent and every capacity, the reported
`edge_count[focus]` equals the exact number of scanned candidates satisfying
the edge predicate (overflow never silently truncates the count); the writes
are exactly the first `max_neighbors` qualifying candidates, and every write
lands in the focus agent's own slot range
`[focus·max_neighbors, focus·max_neighbors + max_neighbors)`. -/
theorem get_neighbors_edge_count_exact (bin_locations : ℕ → Int3)
    (locations : ℕ → Vec3) (bins : Int3 → List ℕ) (distance : ℝ)
    (max_neighbors focus : ℕ) :
    (get_neighbors_focus bin_locations locations bins distance max_neighbors focus).2
      = ((bin_candidates bins (bin_locations focus)).filter
          (neighbor_test locations distance focus)).length ∧
    (get_neighbors_focus bin_locations locations bins distance max_neighbors focus).1
      = ((bin_candidates bins (bin_locations focus)).filter
          (neighbor_test locations distance focus)).take max_neighbors ∧
    (get_neighbors_focus bin_locations locations bins distance max_neighbors focus).1.length
      ≤ max_neighbors ∧
    (∀ t, t < (get_neighbors_focus bin_locations locations bins distance
        max_neighbors focus).1.length →
      focus * max_neighbors ≤ focus * max_neighbors + t ∧
      focus * max_neighbors + t < focus * max_neighbors + max_neighbors) := by
  unfold get_neighbors_focus
  rw [edge_scan_eq]
  dsimp only
  have hlen : (((bin_candidates bins (bin_locations focus)).filter
      (neighbor_test locations distance focus)).take max_neighbors).length
        ≤ max_neighbors := by
    rw [List.length_take]
    omega
  refine ⟨rfl, rfl, hlen, fun t ht => ⟨by omega, by omega⟩⟩

@[simp] lemma Int3.add_fst (a b : Int3) : (a + b).1 = a.1 + b.1 := rfl

@[simp] lemma Int3.add_snd_fst (a b : Int3) : (a + b).2.1 = a.2.1 + b.2.1 := rfl

@[simp] lemma Int3.add_snd_snd (a b : Int3) : (a + b).2.2 = a.2.2 + b.2.2 := rfl

/-- The bin coordinate of a location: `floor(location / bin_size)` per axis,
the SpatialBin invariant of the spec (a constant `shift` accounts for the
ghost-layer offset of the source's array indexing). -/
noncomputable def bin_of (bin_size : ℝ) (v : Vec3) : Int3 :=
  (⌊v 0 / bin_size⌋, ⌊v 1 / bin_size⌋, ⌊v 2 / bin_size⌋)

@[simp] lemma bin_of_fst (s : ℝ) (v : Vec3) : (bin_of s v).1 = ⌊v 0 / s⌋ := rfl

@[simp] lemma bin_of_snd_fst (s : ℝ) (v : Vec3) : (bin_of s v).2.1 = ⌊v 1 / s⌋ := rfl

@[simp] lemma bin_of_snd_snd (s : ℝ) (v : Vec3) : (bin_of s v).2.2 = ⌊v 2 / s⌋ := rfl

/-- Two points at distance at most one bin size land in the same or an
adjacent bin slice along each axis. -/
lemma floor_div_adjacent (u v s : ℝ) (hs : 0 < s) (h : |u - v| ≤ s) :
    -1 ≤ ⌊u / s⌋ - ⌊v / s⌋ ∧ ⌊u / s⌋ - ⌊v / s⌋ ≤ 1 := by
  rw [abs_sub_le_iff] at h
  have key : ∀ x y : ℝ, x - y ≤ s → ⌊x / s⌋ - ⌊y / s⌋ ≤ 1 := by
    intro x y hxy
    have h1 : x / s ≤ (y + s) / s := by
      gcongr
      linarith
    have h2 : (y + s) / s = y / s + 1 := by
      field_simp
    have h3 : ⌊x / s⌋ ≤ ⌊y / s + 1⌋ := Int.floor_le_floor (by rw [← h2]; exact h1)
    rw [Int.floor_add_one] at h3
    omega
  constructor
  · have := key v u h.2
    omega
  · exact key u v h.1

/-- With floor placement, a bin size of at least the search radius and a
pair within the search radius, the second agent's bin is one of the 27 bins
the first agent scans. -/
lemma qualifying_in_candidates (number_agents : ℕ) (bin_locations : ℕ → Int3)
    (locations : ℕ → Vec3) (bins : Int3 → List ℕ) (distance bin_size : ℝ)
    (shift : Int3)
    (hsize : 0 < bin_size) (hradius : distance ≤ bin_size)
    (hplace : ∀ a, a < number_agents →
      bin_locations a = bin_of bin_size (locations a) + shift)
    (hmem : ∀ a, a < number_agents → a ∈ bins (bin_locations a))
    (i j : ℕ) (hi : i < number_agents) (hj : j < number_agents)
    (hdist : dist3 (locations i) (locations j) ≤ distance) :
    j ∈ bin_candidates bins (bin_locations i) := by
  rw [mem_bin_candidates]
  have haxis : ∀ k : Fin 3,
      -1 ≤ ⌊locations j k / bin_size⌋ - ⌊locations i k / bin_size⌋ ∧
      ⌊locations j k / bin_size⌋ - ⌊locations i k / bin_size⌋ ≤ 1 := by
    intro k
    apply floor_div_adjacent _ _ _ hsize
    calc |locations j k - locations i k|
        ≤ dist3 (locations j) (locations i) := abs_sub_le_dist3 _ _ k
      _ = dist3 (locations i) (locations j) := dist3_comm _ _
      _ ≤ distance := hdist
      _ ≤ bin_size := hradius
  refine ⟨((bin_locations j).1 - (bin_locations i).1,
           (bin_locations j).2.1 - (bin_locations i).2.1,
           (bin_locations j).2.2 - (bin_locations i).2.2), ?_, ?_⟩
  · rw [mem_binOffsets]
    rw [hplace i hi, hplace j hj]
    simp only [Int3.add_fst, Int3.add_snd_fst, Int3.add_snd_snd,
      bin_of_fst, bin_of_snd_fst, bin_of_snd_snd]
    have h0 := haxis 0
    have h1 := haxis 1
    have h2 := haxis 2
    refine ⟨⟨by omega, by omega⟩, ⟨by omega, by omega⟩, by omega, by omega⟩
  · have heq : bin_locations i +
        (((bin_locations j).1 - (bin_locations i).1,
          (bin_locations j).2.1 - (bin_locations i).2.1,
          (bin_locations j).2.2 - (bin_locations i).2.2) : Int3) = bin_locations j := by
      refine Prod.ext ?_ (Prod.ext ?_ ?_)
      · simp only [Int3.add_fst]
        ring
      · simp only [Int3.add_snd_fst]
        ring
      · simp only [Int3.add_snd_snd]
        ring
    rw [heq]
    exact hmem j hj

/-- The 27-bin candidate list of any focus has no duplicates: every agent
sits in exactly the bin of its own bin coordinate. -/
lemma bin_candidates_nodup (number_agents : ℕ) (bin_locations : ℕ → Int3)
    (bins : Int3 → List ℕ) (c : Int3)
    (hvalid : ∀ c a, a ∈ bins c → a < number_agents ∧ bin_locations a = c)
    (hnodup : ∀ c, (bins c).Nodup) :
    (bin_candidates bins c).Nodup := by
  unfold bin_candidates
  rw [List.nodup_flatMap]
  refine ⟨fun off _ => hnodup _, ?_⟩
  have hpair : binOffsets.Pairwise (· ≠ ·) := binOffsets_nodup
  refine hpair.imp ?_
  intro o1 o2 hne x hx1 hx2
  have e1 := (hvalid _ _ hx1).2
  have e2 := (hvalid _ _ hx2).2
  apply hne
  have hco : c + o1 = c + o2 := by rw [← e1, ← e2]
  have hc1 : c.1 + o1.1 = c.1 + o2.1 := congrArg Prod.fst hco
  have hc2 : c.2.1 + o1.2.1 = c.2.1 + o2.2.1 := congrArg (fun p => p.2.1) hco
  have hc3 : c.2.2 + o1.2.2 = c.2.2 + o2.2.2 := congrArg (fun p => p.2.2) hco
  refine Prod.ext ?_ (Prod.ext ?_ ?_)
  · omega
  · omega
  · omega

/-- The brute-force O(n²) reference of the spec: every pair `(i, j)` with
`i < j` and `distance(i, j) ≤ neighbor_radius`. -/
noncomputable def brute_force_neighbor_edges (number_agents : ℕ)
    (locations : ℕ → Vec3) (distance : ℝ) : List (ℕ × ℕ) :=
  (List.range number_agents).flatMap fun i =>
    (((List.range number_agents).filter fun j =>
        decide (i < j ∧ dist3 (locations i) (locations j) ≤ distance)).map
      fun j => (i, j))

lemma mem_brute_force (number_agents : ℕ) (locations : ℕ → Vec3) (distance : ℝ)
    (i j : ℕ) :
    (i, j) ∈ brute_force_neighbor_edges number_agents locations distance ↔
      i < number_agents ∧ j < number_agents ∧ i < j ∧
        dist3 (locations i) (locations j) ≤ distance := by
  unfold brute_force_neighbor_edges
  simp only [List.mem_flatMap, List.mem_map, List.mem_filter, List.mem_range,
    decide_eq_true_eq, Prod.mk.injEq]
  constructor
  · rintro ⟨a, ha, b, ⟨hb, hab, hd⟩, rfl, rfl⟩
    exact ⟨ha, hb, hab, hd⟩
  · rintro ⟨hi, hj, hij, hd⟩
    exact ⟨i, hi, j, ⟨hj, hij, hd⟩, rfl, rfl⟩

lemma mem_get_neighbors_cpu (number_agents : ℕ) (bin_locations : ℕ → Int3)
    (locations : ℕ → Vec3) (bins : Int3 → List ℕ) (distance : ℝ)
    (max_neighbors : ℕ)
    (hcap : ∀ focus, focus < number_agents →
      ((bin_candidates bins (bin_locations focus)).filter
        (neighbor_test locations distance focus)).length ≤ max_neighbors)
    (i j : ℕ) :
    (i, j) ∈ get_neighbors_cpu number_agents bin_locations locations bins
        distance max_neighbors ↔
      i < number_agents ∧ j ∈ bin_candidates bins (bin_locations i) ∧
        dist3 (locations i) (locations j) ≤ distance ∧ i < j := by
  unfold get_neighbors_cpu
  simp only [List.mem_flatMap, List.mem_map, List.mem_range, Prod.mk.injEq]
  constructor
  · rintro ⟨a, ha, b, hb, rfl, rfl⟩
    have heq := (get_neighbors_edge_count_exact bin_locations locations bins
      distance max_neighbors a).2.1
    rw [heq, List.take_of_length_le (hcap a ha)] at hb
    rw [List.mem_filter] at hb
    have hp := of_decide_eq_true hb.2
    exact ⟨ha, hb.1, hp.1, hp.2⟩
  · rintro ⟨hi, hc, hd, hij⟩
    refine ⟨i, hi, j, ?_, rfl, rfl⟩
    have heq := (get_neighbors_edge_count_exact bin_locations locations bins
      distance max_neighbors i).2.1
    rw [heq, List.take_of_length_le (hcap i hi)]
    rw [List.mem_filter]
    exact ⟨hc, decide_eq_true ⟨hd, hij⟩⟩

/-- C2. Under the binning hypotheses of the claim — every agent recorded in
exactly the bin of its floor-placement coordinate (up to the constant ghost
shift), bin size at least the search radius, and per-agent qualifying-edge
counts within the edge capacity — the binned pass produces exactly the
brute-force edge set `{(i, j) | i < j ∧ distance(i, j) ≤ radius}`, with no
duplicate edges, no self-loops, and a symmetric induced adjacency. -/
theorem get_neighbors_matches_brute_force (number_agents : ℕ)
    (bin_locations : ℕ → Int3) (locations : ℕ → Vec3) (bins : Int3 → List ℕ)
    (distance bin_size : ℝ) (max_neighbors : ℕ) (shift : Int3)
    (hsize : 0 < bin_size) (hradius : distance ≤ bin_size)
    (hplace : ∀ a, a < number_agents →
      bin_locations a = bin_of bin_size (locations a) + shift)
    (hmem : ∀ a, a < number_agents → a ∈ bins (bin_locations a))
    (hvalid : ∀ c a, a ∈ bins c → a < number_agents ∧ bin_locations a = c)
    (hnodup : ∀ c, (bins c).Nodup)
    (hcap : ∀ focus, focus < number_agents →
      ((bin_candidates bins (bin_locations focus)).filter
        (neighbor_test locations distance focus)).length ≤ max_neighbors) :
    (∀ i j : ℕ,
      (i, j) ∈ get_neighbors_cpu number_agents bin_locations locations bins
          distance max_neighbors ↔
        (i, j) ∈ brute_force_neighbor_edges number_agents locations distance) ∧
    (get_neighbors_cpu number_agents bin_locations locations bins distance
        max_neighbors).Nodup ∧
    (∀ i, (i, i) ∉ get_neighbors_cpu number_agents bin_locations locations bins
        distance max_neighbors) ∧
    (∀ i j : ℕ,
      ((i, j) ∈ get_neighbors_cpu number_agents bin_locations locations bins
          distance max_neighbors ∨
       (j, i) ∈ get_neighbors_cpu number_agents bin_locations locations bins
          distance max_neighbors) ↔
        (i < number_agents ∧ j < number_agents ∧ i ≠ j ∧
          dist3 (locations i) (locations j) ≤ distance)) := by
  have hiff : ∀ i j : ℕ,
      (i, j) ∈ get_neighbors_cpu number_agents bin_locations locations bins
          distance max_neighbors ↔
        (i, j) ∈ brute_force_neighbor_edges number_agents locations distance := by
    intro i j
    rw [mem_get_neighbors_cpu number_agents bin_locations locations bins distance
      max_neighbors hcap, mem_brute_force]
    constructor
    · rintro ⟨hi, hc, hd, hij⟩
      obtain ⟨off, _, hoff⟩ := (mem_bin_candidates bins (bin_locations i) j).mp hc
      exact ⟨hi, (hvalid _ _ hoff).1, hij, hd⟩
    · rintro ⟨hi, hj, hij, hd⟩
      exact ⟨hi, qualifying_in_candidates number_agents bin_locations locations bins
        distance bin_size shift hsize hradius hplace hmem i j hi hj hd, hd, hij⟩
  refine ⟨hiff, ?_, ?_, ?_⟩
  · unfold get_neighbors_cpu
    rw [List.nodup_flatMap]
    constructor
    · intro focus _
      apply List.Nodup.map
      · intro a b hab
        exact ((Prod.mk.injEq _ _ _ _).mp hab).2
      · have heq := (get_neighbors_edge_count_exact bin_locations locations bins
          distance max_neighbors focus).2.1
        rw [heq]
        exact (List.take_sublist _ _).nodup
          ((bin_candidates_nodup number_agents bin_locations bins
            (bin_locations focus) hvalid hnodup).filter _)
    · have hpair : (List.range number_agents).Pairwise (· ≠ ·) :=
        List.nodup_range number_agents
      refine hpair.imp ?_
      intro f1 f2 hne x hx1 hx2
      obtain ⟨a, _, rfl⟩ := List.mem_map.mp hx1
      obtain ⟨b, _, hb⟩ := List.mem_map.mp hx2
      exact hne ((Prod.mk.injEq _ _ _ _).mp hb.symm).1
  · intro i hmem'
    have := (hiff i i).mp hmem'
    rw [mem_brute_force] at this
    omega
  · intro i j
    constructor
    · rintro (h | h)
      · have hb := (hiff i j).mp h
        rw [mem_brute_force] at hb
        exact ⟨hb.1, hb.2.1, by omega, hb.2.2.2⟩
      · have hb := (hiff j i).mp h
        rw [mem_brute_force] at hb
        refine ⟨hb.2.1, hb.1, by omega, ?_⟩
        rw [dist3_comm]
        exact hb.2.2.2
    · rintro ⟨hi, hj, hij, hd⟩
      rcases Nat.lt_or_ge i j with hlt | hge
      · left
        rw [hiff, mem_brute_force]
        exact ⟨hi, hj, hlt, hd⟩
      · right
        rw [hiff, mem_brute_force]
        refine ⟨hj, hi, by omega, ?_⟩
        rw [dist3_comm]
        exact hd

/-- A concrete two-agent configuration: agents at `(1/4, 1/4, 1/4)` and
`(3/4, 1/4, 1/4)`, both in the bin at the origin. -/
noncomputable def pair_locations : ℕ → Vec3 := fun a k =>
  if a = 0 then 1/4 else if k = 0 then 3/4 else 1/4

/-- The bin contents of the two-agent configuration. -/
def pair_bins : Int3 → List ℕ := fun c => if c = ((0, 0, 0) : Int3) then [0, 1] else []

/-- The bin coordinates of the two-agent configuration. -/
def pair_bin_locations : ℕ → Int3 := fun _ => (0, 0, 0)

lemma pair_dist : dist3 (pair_locations 0) (pair_locations 1) = 1/2 := by
  show Real.sqrt (((3:ℝ)/4 - 1/4) ^ 2 + ((1:ℝ)/4 - 1/4) ^ 2 + ((1:ℝ)/4 - 1/4) ^ 2) = 1/2
  rw [show ((3:ℝ)/4 - 1/4) ^ 2 + ((1:ℝ)/4 - 1/4) ^ 2 + ((1:ℝ)/4 - 1/4) ^ 2
      = ((1:ℝ)/2) ^ 2 by norm_num]
  rw [Real.sqrt_sq (by norm_num)]

lemma pair_test_00 : ¬ neighbor_test pair_locations 1 0 0 = true := by
  unfold neighbor_test
  simp only [decide_eq_true_eq]
  rintro ⟨-, h⟩
  omega

lemma pair_test_01 : neighbor_test pair_locations 1 0 1 = true := by
  unfold neighbor_test
  apply decide_eq_true
  refine ⟨?_, by omega⟩
  rw [pair_dist]
  norm_num

lemma pair_test_10 : ¬ neighbor_test pair_locations 1 1 0 = true := by
  unfold neighbor_test
  simp only [decide_eq_true_eq]
  rintro ⟨-, h⟩
  omega

lemma pair_test_11 : ¬ neighbor_test pair_locations 1 1 1 = true := by
  unfold neighbor_test
  simp only [decide_eq_true_eq]
  rintro ⟨-, h⟩
  omega

lemma pair_candidates : bin_candidates pair_bins ((0, 0, 0) : Int3) = [0, 1] := by
  decide

/-- Witness for C2: on the two-agent configuration (bin size `1`, search
radius `1`, capacity `1`) the binned pass equals the brute-force reference
and the produced graph is duplicate-free, loop-free and symmetric. -/
theorem get_neighbors_matches_brute_force_witness :
    (∀ i j : ℕ,
      (i, j) ∈ get_neighbors_cpu 2 pair_bin_locations pair_locations pair_bins 1 1 ↔
        (i, j) ∈ brute_force_neighbor_edges 2 pair_locations 1) ∧
    (get_neighbors_cpu 2 pair_bin_locations pair_locations pair_bins 1 1).Nodup ∧
    (∀ i, (i, i) ∉ get_neighbors_cpu 2 pair_bin_locations pair_locations pair_bins 1 1) ∧
    (∀ i j : ℕ,
      ((i, j) ∈ get_neighbors_cpu 2 pair_bin_locations pair_locations pair_bins 1 1 ∨
       (j, i) ∈ get_neighbors_cpu 2 pair_bin_locations pair_locations pair_bins 1 1) ↔
        (i < 2 ∧ j < 2 ∧ i ≠ j ∧ dist3 (pair_locations i) (pair_locations j) ≤ 1)) := by
  have h14 : ⌊((4:ℝ))⁻¹⌋ = 0 := by
    rw [Int.floor_eq_zero_iff, Set.mem_Ico]
    constructor <;> norm_num
  have h34 : ⌊(3:ℝ)/4⌋ = 0 := by
    rw [Int.floor_eq_zero_iff, Set.mem_Ico]
    constructor <;> norm_num
  apply get_neighbors_matches_brute_force 2 pair_bin_locations pair_locations pair_bins
    1 1 1 ((0, 0, 0) : Int3) one_pos le_rfl
  · intro a ha
    interval_cases a
    · show ((0, 0, 0) : Int3) = bin_of 1 (pair_locations 0) + (0, 0, 0)
      refine Prod.ext ?_ (Prod.ext ?_ ?_) <;> simp [bin_of, pair_locations] <;>
        first | exact h14.symm | exact h34.symm
    · show ((0, 0, 0) : Int3) = bin_of 1 (pair_locations 1) + (0, 0, 0)
      refine Prod.ext ?_ (Prod.ext ?_ ?_) <;> simp [bin_of, pair_locations] <;>
        first | exact h14.symm | exact h34.symm
  · intro a ha
    interval_cases a <;> decide
  · intro c a h
    unfold pair_bins at h
    by_cases hc : c = ((0, 0, 0) : Int3)
    · subst hc
      rw [if_pos rfl] at h
      rw [List.mem_cons, List.mem_cons] at h
      rcases h with rfl | rfl | h
      · exact ⟨by omega, rfl⟩
      · exact ⟨by omega, rfl⟩
      · exact absurd h (List.not_mem_nil a)
    · rw [if_neg hc] at h
      exact absurd h (List.not_mem_nil a)
  · intro c
    unfold pair_bins
    split <;> decide
  · intro focus hf
    interval_cases focus
    · show ((bin_candidates pair_bins (pair_bin_locations 0)).filter
        (neighbor_test pair_locations 1 0)).length ≤ 1
      rw [show pair_bin_locations 0 = ((0, 0, 0) : Int3) from rfl, pair_candidates]
      rw [show ([0, 1] : List ℕ) = 0 :: 1 :: [] from rfl]
      rw [List.filter_cons_of_neg pair_test_00, List.filter_cons_of_pos pair_test_01]
      simp
    · show ((bin_candidates pair_bins (pair_bin_locations 1)).filter
        (neighbor_test pair_locations 1 1)).length ≤ 1
      rw [show pair_bin_locations 1 = ((0, 0, 0) : Int3) from rfl, pair_candidates]
      rw [show ([0, 1] : List ℕ) = 0 :: 1 :: [] from rfl]
      rw [List.filter_cons_of_neg pair_test_10, List.filter_cons_of_neg pair_test_11]
      simp
